import Mathlib

/-!
Verification of the in-process metrics engine
(`src/common/metrics/metrics.service.ts` and
`src/common/metrics/metrics.controller.ts`).

The TypeScript service is shallowly embedded:
* JavaScript `Map`s are insertion-ordered association lists
  (`alookup` models `Map.get`, `mapSet` models `Map.set`, which keeps the
  insertion position of an existing key and appends a fresh key).
* JavaScript numbers are modelled as exact rationals (`ℚ`); histogram
  observation counts, which the code only ever increments by 1 starting
  from 0, are modelled as `ℕ`.
* `Record<string, string>` label maps are insertion-ordered lists of
  key/value pairs; an omitted argument is `none`.
* The `timestamp: Date` field of a logged `Metric` is wall-clock time and
  is not modelled; the remaining fields are kept.
* `String.prototype.localeCompare` on label keys is modelled as the
  lexicographic order on strings.
-/

namespace Metrics

/-- A label map (`Record<string, string>`), as an insertion-ordered
association list of key/value pairs. -/
abbrev Labels := List (String × String)

/-- `Map.get` of a JavaScript `Map`, on the association-list model. -/
def alookup {α β : Type} [DecidableEq α] : List (α × β) → α → Option β
  | [], _ => none
  | (k, v) :: rest, k' => if k' = k then some v else alookup rest k'

/-- `Map.set` of a JavaScript `Map`: overwriting an existing key keeps its
insertion position, a fresh key is appended at the end.  The same semantics
models updating a key of a JavaScript object. -/
def mapSet {α β : Type} [DecidableEq α] : List (α × β) → α → β → List (α × β)
  | [], k, v => [(k, v)]
  | (k0, v0) :: rest, k, v =>
      if k = k0 then (k0, v) :: rest else (k0, v0) :: mapSet rest k v

/-- A histogram bucket upper bound: a finite number or `Infinity`. -/
inductive Bound : Type where
  | fin : ℚ → Bound
  | inf : Bound
deriving DecidableEq

/-- The test `value <= bound` where the bound may be `Infinity`. -/
def leBound (value : ℚ) : Bound → Bool
  | .fin b => decide (value ≤ b)
  | .inf => true

/-- One entry of the bounded event log (interface `Metric` in the source);
the wall-clock `timestamp` field is not modelled. -/
structure Metric where
  name : String
  value : ℚ
  labels : Option Labels
deriving DecidableEq

/-- Interface `Counter` of the source. -/
structure Counter where
  value : ℚ
  labels : Option Labels
deriving DecidableEq

/-- Interface `Histogram` of the source; `buckets: Map<number, number>` is
an insertion-ordered association list keyed by bucket bound. -/
structure Histogram where
  count : ℕ
  sum : ℚ
  buckets : List (Bound × ℕ)
  labels : Option Labels
deriving DecidableEq

/-- The state of `MetricsService`: the three label-keyed maps and the
bounded event log. -/
structure MetricsService where
  counters : List (String × Counter)
  histograms : List (String × Histogram)
  gauges : List (String × ℚ)
  metrics : List Metric
deriving DecidableEq

/-- The state of a freshly constructed service: all maps and the log empty. -/
def emptyService : MetricsService :=
  { counters := [], histograms := [], gauges := [], metrics := [] }

/-- Lexicographic comparison of two character sequences. -/
def charListLe : List Char → List Char → Bool
  | [], _ => true
  | _ :: _, [] => false
  | c :: cs, d :: ds => if c = d then charListLe cs ds else decide (c < d)

/-- Comparison of label entries by key, modelling the
`([a], [b]) => a.localeCompare(b)` comparator; `localeCompare` is modelled
as lexicographic comparison of the key's character sequences. -/
def keyLE (a b : String × String) : Prop := charListLe a.1.data b.1.data = true

instance : DecidableRel keyLE := fun a b =>
  inferInstanceAs (Decidable (charListLe a.1.data b.1.data = true))

/-- `Object.entries(labels).sort(([a], [b]) => a.localeCompare(b))`:
a stable sort of the label entries by key. -/
def sortLabels (l : Labels) : Labels := List.insertionSort keyLE l

/-- One `key="value"` fragment of a serialized label set. -/
def labelEntryStr (kv : String × String) : String := kv.1 ++ "=\"" ++ kv.2 ++ "\""

/-- `getKey`: the canonical storage key — the bare name when there are no
labels, else `name|k1="v1",k2="v2",...` with entries sorted by key. -/
def getKey (name : String) (labels : Option Labels) : String :=
  match labels with
  | none => name
  | some l =>
      if l.isEmpty then name
      else name ++ "|" ++ String.intercalate "," ((sortLabels l).map labelEntryStr)

/-- `recordMetric`: push the event, then keep only the last 1000 entries
(`this.metrics = this.metrics.slice(-1000)` when the length exceeds 1000). -/
def recordMetric (s : MetricsService) (name : String) (value : ℚ)
    (labels : Option Labels) : MetricsService :=
  let m := s.metrics ++ [⟨name, value, labels⟩]
  { s with metrics := if 1000 < m.length then m.drop (m.length - 1000) else m }

/-- `incrementCounter` (the source's default for the `value` argument is 1;
callers of the model pass it explicitly).  Both source branches store under
`key`: the in-place `existing.value += value` keeps the entry's position,
which `mapSet` reproduces, and the `else` branch creates `{ value, labels }`. -/
def incrementCounter (s : MetricsService) (name : String) (labels : Option Labels)
    (value : ℚ) : MetricsService :=
  let key := getKey name labels
  let newC : Counter :=
    match alookup s.counters key with
    | some existing => { existing with value := existing.value + value }
    | none => { value := value, labels := labels }
  recordMetric { s with counters := mapSet s.counters key newC } name value labels

/-- `getCounter`: `this.counters.get(key)?.value || 0`.  The `|| 0` turns
only an absent (or zero) read into 0, which the model's `none` branch
reproduces. -/
def getCounter (s : MetricsService) (name : String) (labels : Option Labels) : ℚ :=
  match alookup s.counters (getKey name labels) with
  | some c => c.value
  | none => 0

/-- The fixed bucket bounds `[0.1, 0.5, 1, 2.5, 5, 10, Infinity]`. -/
def stdBuckets : List Bound :=
  [.fin (1/10), .fin (1/2), .fin 1, .fin (5/2), .fin 5, .fin 10, .inf]

/-- The bucket-update loop of `recordHistogram`: for every fixed bound `b`
with `value <= b`, increment that bucket's count (creating it at 0). -/
def updateBuckets (buckets : List (Bound × ℕ)) (value : ℚ) : List (Bound × ℕ) :=
  stdBuckets.foldl
    (fun bs b =>
      if leBound value b then mapSet bs b ((alookup bs b).getD 0 + 1) else bs)
    buckets

/-- `recordHistogram`: create the histogram lazily, then increment `count`,
add `value` to `sum`, and update the cumulative buckets. -/
def recordHistogram (s : MetricsService) (name : String) (value : ℚ)
    (labels : Option Labels) : MetricsService :=
  let key := getKey name labels
  let h := (alookup s.histograms key).getD ⟨0, 0, [], labels⟩
  let h' : Histogram :=
    { h with count := h.count + 1, sum := h.sum + value,
             buckets := updateBuckets h.buckets value }
  recordMetric { s with histograms := mapSet s.histograms key h' } name value labels

/-- `getHistogram`: the stored histogram, or absent. -/
def getHistogram (s : MetricsService) (name : String) (labels : Option Labels) :
    Option Histogram :=
  alookup s.histograms (getKey name labels)

/-- `setGauge`. -/
def setGauge (s : MetricsService) (name : String) (value : ℚ)
    (labels : Option Labels) : MetricsService :=
  recordMetric { s with gauges := mapSet s.gauges (getKey name labels) value }
    name value labels

/-- `incrementGauge` (source default for `value` is 1; passed explicitly). -/
def incrementGauge (s : MetricsService) (name : String) (value : ℚ)
    (labels : Option Labels) : MetricsService :=
  let current := (alookup s.gauges (getKey name labels)).getD 0
  setGauge s name (current + value) labels

/-- `decrementGauge` (source default for `value` is 1; passed explicitly). -/
def decrementGauge (s : MetricsService) (name : String) (value : ℚ)
    (labels : Option Labels) : MetricsService :=
  let current := (alookup s.gauges (getKey name labels)).getD 0
  setGauge s name (current - value) labels

/-- `getGauge`: `this.gauges.get(key) || 0`. -/
def getGauge (s : MetricsService) (name : String) (labels : Option Labels) : ℚ :=
  (alookup s.gauges (getKey name labels)).getD 0

/-- The label set `{ endpoint, method, status_code: statusCode.toString() }`
built by `recordApiCall`. -/
def apiLabels (endpoint method : String) (statusCode : ℤ) : Labels :=
  [("endpoint", endpoint), ("method", method), ("status_code", toString statusCode)]

/-- `recordApiCall`. -/
def recordApiCall (s : MetricsService) (endpoint method : String)
    (statusCode : ℤ) (duration : ℚ) : MetricsService :=
  let labels := apiLabels endpoint method statusCode
  let s1 := incrementCounter s "api_requests_total" (some labels) 1
  let s2 := recordHistogram s1 "api_request_duration_seconds" (duration / 1000)
    (some labels)
  if 400 ≤ statusCode then incrementCounter s2 "api_errors_total" (some labels) 1
  else s2

/-- `recordUserAction`. -/
def recordUserAction (s : MetricsService) (action userId : String) : MetricsService :=
  incrementCounter s "user_actions_total" (some [("action", action), ("user_id", userId)]) 1

/-- `recordDatabaseOperation`. -/
def recordDatabaseOperation (s : MetricsService) (operation table : String)
    (duration : ℚ) : MetricsService :=
  let labels : Labels := [("operation", operation), ("table", table)]
  let s1 := incrementCounter s "database_operations_total" (some labels) 1
  recordHistogram s1 "database_operation_duration_seconds" (duration / 1000) (some labels)

/-- `recordFileOperation`.  The source guards the histogram write with
`if (size)`, a JavaScript truthiness test: it is skipped both when `size`
is omitted and when it equals 0. -/
def recordFileOperation (s : MetricsService) (operation fileType : String)
    (size : Option ℚ) : MetricsService :=
  let labels : Labels := [("operation", operation), ("file_type", fileType)]
  let s1 := incrementCounter s "file_operations_total" (some labels) 1
  match size with
  | some v => if v = 0 then s1 else recordHistogram s1 "file_size_bytes" v (some labels)
  | none => s1

/-- `recordAuthEvent`. -/
def recordAuthEvent (s : MetricsService) (event : String) (success : Bool) :
    MetricsService :=
  incrementCounter s "auth_events_total"
    (some [("event", event), ("success", toString success)]) 1

/-- `recordCacheHitRate`. -/
def recordCacheHitRate (s : MetricsService) (service : String) (hits total : ℚ) :
    MetricsService :=
  let hitRate := if 0 < total then hits / total else 0
  let s1 := setGauge s "cache_hit_rate" hitRate (some [("service", service)])
  let s2 := incrementCounter s1 "cache_operations_total"
    (some [("service", service), ("type", "hit")]) hits
  incrementCounter s2 "cache_operations_total"
    (some [("service", service), ("type", "miss")]) (total - hits)

/-- `getMetrics`: a copy of the event log. -/
def getMetrics (s : MetricsService) : List Metric := s.metrics

/-- `reset`: clears the three maps and the event log. -/
def reset (_s : MetricsService) : MetricsService :=
  { counters := [], histograms := [], gauges := [], metrics := [] }

/-! ### The Prometheus text exporter -/

/-- `str.split(sep)` for a one-character separator, on character lists. -/
def splitOnChar : List Char → Char → List (List Char)
  | [], _ => [[]]
  | c :: rest, sep =>
      if c = sep then [] :: splitOnChar rest sep
      else
        match splitOnChar rest sep with
        | [] => [[c]]
        | h :: t => (c :: h) :: t

/-- `str.split(sep)` for a one-character separator. -/
def splitStr (s : String) (sep : Char) : List String :=
  (splitOnChar s.data sep).map fun l => ⟨l⟩

/-- The metric family name of a canonical key: `key.split('|')[0]`. -/
def keyName (key : String) : String := (splitStr key '|').headD key

/-- `value.replace(/"/g, '')`. -/
def stripQuotes (s : String) : String := ⟨s.data.filter fun c => c ≠ '"'⟩

/-- One step of `parseLabels`: `pair.split('=')`, keep the pair when both
the key and the value are truthy (non-empty). -/
def parsePair (pair : String) : Option (String × String) :=
  match splitStr pair '=' with
  | k :: v :: _ => if k = "" ∨ v = "" then none else some (k, stripQuotes v)
  | _ => none

/-- `parseLabels`: splits a serialized label string on `,`, each pair on
`=`, strips quotes, and stores into an object (`labels[key] = value`). -/
def parseLabels (labelStr : String) : Labels :=
  (splitStr labelStr ',').foldl
    (fun acc pair =>
      match parsePair pair with
      | some kv => mapSet acc kv.1 kv.2
      | none => acc)
    []

/-- The decimal digits of the fractional part `r / d` (`0 < r < d`), with
fuel.  This models `Number.prototype.toString` for the terminating decimals
the service renders (JavaScript prints the shortest decimal that denotes
the double; on the exact-rational model this is the exact expansion). -/
def fracDigits : ℕ → ℕ → ℕ → String
  | 0, _, _ => ""
  | _ + 1, 0, _ => ""
  | fuel + 1, r, d => toString (10 * r / d) ++ fracDigits fuel (10 * r % d) d

/-- `q.toString()` for a non-negative rational. -/
def jsNumStrNonneg (q : ℚ) : String :=
  let ipart := q.num.toNat / q.den
  let r := q.num.toNat % q.den
  if r = 0 then toString ipart
  else toString ipart ++ "." ++ fracDigits 64 r q.den

/-- `q.toString()`: JavaScript number formatting on the rational model. -/
def jsNumStr (q : ℚ) : String :=
  if q < 0 then "-" ++ jsNumStrNonneg (-q) else jsNumStrNonneg q

/-- `bucket === Infinity ? '+Inf' : bucket.toString()`. -/
def boundStr : Bound → String
  | .fin q => jsNumStr q
  | .inf => "+Inf"

/-- `formatLabels`: `{k1="v1",...}` in the stored insertion order, or the
empty string for an absent or empty label map. -/
def formatLabels : Option Labels → String
  | none => ""
  | some l =>
      if l.isEmpty then ""
      else "\x7b" ++ String.intercalate "," (l.map labelEntryStr) ++ "\x7d"

/-- The two exported lines of one counter entry. -/
def counterLines (kv : String × Counter) : List String :=
  let name := keyName kv.1
  let ls := formatLabels kv.2.labels
  ["# TYPE " ++ name ++ " counter", name ++ ls ++ " " ++ jsNumStr kv.2.value]

/-- One `<name>_bucket` sample line: the stored labels spread together with
`le` (an existing `le` label is overwritten in place, a fresh one is
appended, as for a JavaScript object spread). -/
def bucketLine (name : String) (labels : Option Labels) (bc : Bound × ℕ) : String :=
  name ++ "_bucket" ++ formatLabels (some (mapSet (labels.getD []) "le" (boundStr bc.1)))
    ++ " " ++ toString bc.2

/-- The exported lines of one histogram entry: the `# TYPE` line, the
`_count` and `_sum` samples, then one `_bucket` sample per entry of the
histogram's bucket map (in bucket-map insertion order). -/
def histogramLines (kv : String × Histogram) : List String :=
  let name := keyName kv.1
  let ls := formatLabels kv.2.labels
  ("# TYPE " ++ name ++ " histogram")
    :: (name ++ "_count" ++ ls ++ " " ++ toString kv.2.count)
    :: (name ++ "_sum" ++ ls ++ " " ++ jsNumStr kv.2.sum)
    :: kv.2.buckets.map (bucketLine name kv.2.labels)

/-- The two exported lines of one gauge entry; the labels are re-parsed
from the canonical key (`const [name, labelStr] = key.split('|')`). -/
def gaugeLines (kv : String × ℚ) : List String :=
  let parts := splitStr kv.1 '|'
  let name := parts.headD kv.1
  let labels : Option Labels :=
    match parts with
    | _ :: lstr :: _ => if lstr = "" then none else some (parseLabels lstr)
    | _ => none
  ["# TYPE " ++ name ++ " gauge", name ++ formatLabels labels ++ " " ++ jsNumStr kv.2]

/-- The lines of the `getPrometheusMetrics` output, in emission order:
all counters, then all histograms, then all gauges, each map iterated in
insertion order. -/
def prometheusLines (s : MetricsService) : List String :=
  s.counters.flatMap counterLines
    ++ s.histograms.flatMap histogramLines
    ++ s.gauges.flatMap gaugeLines

/-- `getPrometheusMetrics`: the source accumulates `output += line + "\n"`,
so the returned text is the concatenation of the lines, each followed by a
newline. -/
def getPrometheusMetrics (s : MetricsService) : String :=
  String.join ((prometheusLines s).map fun l => l ++ "\n")

/-! ### The summary view of the controller -/

/-- `calculateErrorRate` of `MetricsController`: reads the unlabeled
`api_requests_total` and `api_errors_total` counters. -/
def calculateErrorRate (s : MetricsService) : ℚ :=
  let totalRequests := getCounter s "api_requests_total" none
  let totalErrors := getCounter s "api_errors_total" none
  if 0 < totalRequests then totalErrors / totalRequests * 100 else 0

/-- `calculateAverageResponseTime` of `MetricsController`: reads the
unlabeled `api_request_duration_seconds` histogram. -/
def calculateAverageResponseTime (s : MetricsService) : ℚ :=
  match getHistogram s "api_request_duration_seconds" none with
  | some h => if 0 < h.count then h.sum / h.count else 0
  | none => 0

/-- The `api` section of `GET /metrics/summary`. -/
structure ApiSummary where
  totalRequests : ℚ
  totalErrors : ℚ
  errorRate : ℚ
  averageResponseTime : ℚ
deriving DecidableEq

/-- The `api` section built by `getMetricsSummary`. -/
def apiSummary (s : MetricsService) : ApiSummary :=
  { totalRequests := getCounter s "api_requests_total" none
    totalErrors := getCounter s "api_errors_total" none
    errorRate := calculateErrorRate s
    averageResponseTime := calculateAverageResponseTime s }

/-! ### Call sequences -/

/-- One `recordHistogram` call. -/
structure HistCall where
  name : String
  value : ℚ
  labels : Option Labels

/-- The store reached from a fresh service by a sequence of
`recordHistogram` calls. -/
def runHistCalls (calls : List HistCall) : MetricsService :=
  calls.foldl (fun s c => recordHistogram s c.name c.value c.labels) emptyService

/-- One `recordApiCall` call. -/
structure ApiCall where
  endpoint : String
  method : String
  statusCode : ℤ
  duration : ℚ

/-- The store reached from a fresh service by a sequence of
`recordApiCall` calls. -/
def runApiCalls (calls : List ApiCall) : MetricsService :=
  calls.foldl (fun s c => recordApiCall s c.endpoint c.method c.statusCode c.duration)
    emptyService

/-- A mutating call of the service: the five store primitives and the six
business-facade methods. -/
inductive MetricOp : Type where
  | incCounter (name : String) (labels : Option Labels) (value : ℚ)
  | recHistogram (name : String) (value : ℚ) (labels : Option Labels)
  | setG (name : String) (value : ℚ) (labels : Option Labels)
  | incG (name : String) (value : ℚ) (labels : Option Labels)
  | decG (name : String) (value : ℚ) (labels : Option Labels)
  | apiCall (endpoint method : String) (statusCode : ℤ) (duration : ℚ)
  | userAction (action userId : String)
  | dbOp (operation table : String) (duration : ℚ)
  | fileOp (operation fileType : String) (size : Option ℚ)
  | authEvent (event : String) (success : Bool)
  | cacheHitRate (service : String) (hits total : ℚ)

/-- Apply one mutating call. -/
def applyOp (s : MetricsService) : MetricOp → MetricsService
  | .incCounter name labels value => incrementCounter s name labels value
  | .recHistogram name value labels => recordHistogram s name value labels
  | .setG name value labels => setGauge s name value labels
  | .incG name value labels => incrementGauge s name value labels
  | .decG name value labels => decrementGauge s name value labels
  | .apiCall endpoint method statusCode duration =>
      recordApiCall s endpoint method statusCode duration
  | .userAction action userId => recordUserAction s action userId
  | .dbOp operation table duration => recordDatabaseOperation s operation table duration
  | .fileOp operation fileType size => recordFileOperation s operation fileType size
  | .authEvent event success => recordAuthEvent s event success
  | .cacheHitRate service hits total => recordCacheHitRate s service hits total

/-- The store reached from a fresh service by a sequence of mutating calls. -/
def runOps (ops : List MetricOp) : MetricsService :=
  ops.foldl applyOp emptyService

/-- The `MetricEvent`s a mutating call appends to the log: one per
underlying primitive write (`recordMetric` call), in write order, given
the pre-state `s` (gauge events record the value written, which for
increment/decrement depends on the current gauge). -/
def opEvents (s : MetricsService) : MetricOp → List Metric
  | .incCounter name labels value => [⟨name, value, labels⟩]
  | .recHistogram name value labels => [⟨name, value, labels⟩]
  | .setG name value labels => [⟨name, value, labels⟩]
  | .incG name value labels => [⟨name, getGauge s name labels + value, labels⟩]
  | .decG name value labels => [⟨name, getGauge s name labels - value, labels⟩]
  | .apiCall endpoint method statusCode duration =>
      let labels := some (apiLabels endpoint method statusCode)
      ⟨"api_requests_total", 1, labels⟩
        :: ⟨"api_request_duration_seconds", duration / 1000, labels⟩
        :: (if 400 ≤ statusCode then [⟨"api_errors_total", 1, labels⟩] else [])
  | .userAction action userId =>
      [⟨"user_actions_total", 1, some [("action", action), ("user_id", userId)]⟩]
  | .dbOp operation table duration =>
      let labels := some [("operation", operation), ("table", table)]
      [⟨"database_operations_total", 1, labels⟩,
       ⟨"database_operation_duration_seconds", duration / 1000, labels⟩]
  | .fileOp operation fileType size =>
      let labels := some [("operation", operation), ("file_type", fileType)]
      ⟨"file_operations_total", 1, labels⟩
        :: (match size with
            | some v => if v = 0 then [] else [⟨"file_size_bytes", v, labels⟩]
            | none => [])
  | .authEvent event success =>
      [⟨"auth_events_total", 1, some [("event", event), ("success", toString success)]⟩]
  | .cacheHitRate service hits total =>
      [⟨"cache_hit_rate", if 0 < total then hits / total else 0, some [("service", service)]⟩,
       ⟨"cache_operations_total", hits, some [("service", service), ("type", "hit")]⟩,
       ⟨"cache_operations_total", total - hits, some [("service", service), ("type", "miss")]⟩]

/-- The full stream of events a call sequence generates (before any
eviction), obtained by folding the ops while collecting their events. -/
def eventTrace (ops : List MetricOp) : List Metric :=
  (ops.foldl (fun (p : MetricsService × List Metric) op =>
    (applyOp p.1 op, p.2 ++ opEvents p.1 op)) (emptyService, [])).2

/-- The last `n` elements of a list. -/
def takeLast {α : Type} (n : ℕ) (l : List α) : List α := l.drop (l.length - n)

/-! ### Derived accessors used in statements -/

/-- The observation count of a stored histogram, 0 when absent. -/
def histCount (s : MetricsService) (name : String) (labels : Option Labels) : ℕ :=
  match getHistogram s name labels with
  | some h => h.count
  | none => 0

/-- The observation sum of a stored histogram, 0 when absent. -/
def histSum (s : MetricsService) (name : String) (labels : Option Labels) : ℚ :=
  match getHistogram s name labels with
  | some h => h.sum
  | none => 0

/-- The stored count of one bucket of a histogram, 0 when that bucket is
absent from the bucket map. -/
def bucketVal (h : Histogram) (b : Bound) : ℕ := (alookup h.buckets b).getD 0

/-- The histogram invariant of the specification: bucket counts are
non-decreasing along the fixed ordered bucket bounds, and the `+Inf`
bucket count equals `count`. -/
def histInvariant (h : Histogram) : Prop :=
  List.Chain' (fun b1 b2 => bucketVal h b1 ≤ bucketVal h b2) stdBuckets
    ∧ bucketVal h .inf = h.count

/-- Every histogram stored in `s` satisfies `histInvariant`. -/
def allHistInvariant (s : MetricsService) : Prop :=
  ∀ key h, alookup s.histograms key = some h → histInvariant h

/-- The companion of `keyLE` that also separates the keys; it is
antisymmetric (vacuously, through `charListLe` antisymmetry). -/
def keyLT (a b : String × String) : Prop := keyLE a b ∧ a.1 ≠ b.1

/-- Is `sub` a prefix of `l`? -/
def isSubAt : List Char → List Char → Bool
  | [], _ => true
  | _ :: _, [] => false
  | c :: cs, d :: ds => c = d && isSubAt cs ds

/-- Does `sub` occur as a contiguous substring of `l`? -/
def containsSub : List Char → List Char → Bool
  | [], sub => sub.isEmpty
  | c :: rest, sub => isSubAt sub (c :: rest) || containsSub rest sub

/-- A store holding one histogram whose only observation is 5: the value
exceeds the bounds 0.1, 0.5, 1 and 2.5, so only the buckets 5, 10 and
`+Inf` exist in its bucket map. -/
def histEx : MetricsService := runHistCalls [⟨"h", 5, none⟩]

/-- A store after `recordFileOperation('upload', 'pdf', 0)`: the size
argument is given but zero. -/
def fileEx : MetricsService := recordFileOperation emptyService "upload" "pdf" (some 0)

end Metrics

namespace Metrics

/-! ### Association-list lemmas -/

/-- Reading the key just written returns the written value. -/
theorem alookup_mapSet_self {α β : Type} [DecidableEq α]
    (m : List (α × β)) (k : α) (v : β) : alookup (mapSet m k v) k = some v := by
  induction m with
  | nil => simp [mapSet, alookup]
  | cons kv rest ih =>
      by_cases h : k = kv.1
      · simp [mapSet, h, alookup]
      · simp [mapSet, h, alookup, Ne.symm h, ih]

/-- Writing one key leaves every other key unchanged. -/
theorem alookup_mapSet_ne {α β : Type} [DecidableEq α]
    (m : List (α × β)) (k k' : α) (v : β) (h : k' ≠ k) :
    alookup (mapSet m k v) k' = alookup m k' := by
  induction m with
  | nil => simp [mapSet, alookup, h]
  | cons kv rest ih =>
      by_cases hk : k = kv.1
      · subst hk
        simp [mapSet, alookup, h]
      · by_cases hk' : k' = kv.1 <;> simp [mapSet, alookup, hk, hk', ih]

/-! ### Fields untouched by each operation -/

theorem counters_recordMetric (s : MetricsService) (n : String) (v : ℚ)
    (L : Option Labels) : (recordMetric s n v L).counters = s.counters := rfl

theorem histograms_recordMetric (s : MetricsService) (n : String) (v : ℚ)
    (L : Option Labels) : (recordMetric s n v L).histograms = s.histograms := rfl

theorem gauges_recordMetric (s : MetricsService) (n : String) (v : ℚ)
    (L : Option Labels) : (recordMetric s n v L).gauges = s.gauges := rfl

theorem histograms_incrementCounter (s : MetricsService) (n : String)
    (L : Option Labels) (v : ℚ) :
    (incrementCounter s n L v).histograms = s.histograms := rfl

theorem gauges_incrementCounter (s : MetricsService) (n : String)
    (L : Option Labels) (v : ℚ) :
    (incrementCounter s n L v).gauges = s.gauges := rfl

theorem counters_recordHistogram (s : MetricsService) (n : String) (v : ℚ)
    (L : Option Labels) : (recordHistogram s n v L).counters = s.counters := rfl

theorem gauges_recordHistogram (s : MetricsService) (n : String) (v : ℚ)
    (L : Option Labels) : (recordHistogram s n v L).gauges = s.gauges := rfl

theorem counters_setGauge (s : MetricsService) (n : String) (v : ℚ)
    (L : Option Labels) : (setGauge s n v L).counters = s.counters := rfl

theorem histograms_setGauge (s : MetricsService) (n : String) (v : ℚ)
    (L : Option Labels) : (setGauge s n v L).histograms = s.histograms := rfl

theorem counters_incrementCounter (s : MetricsService) (n : String)
    (L : Option Labels) (v : ℚ) :
    (incrementCounter s n L v).counters
      = mapSet s.counters (getKey n L)
          (match alookup s.counters (getKey n L) with
           | some existing => { existing with value := existing.value + v }
           | none => { value := v, labels := L }) := rfl

theorem histograms_recordHistogram (s : MetricsService) (n : String) (v : ℚ)
    (L : Option Labels) :
    (recordHistogram s n v L).histograms
      = mapSet s.histograms (getKey n L)
          (let h := (alookup s.histograms (getKey n L)).getD ⟨0, 0, [], L⟩
           { h with count := h.count + 1, sum := h.sum + v,
                    buckets := updateBuckets h.buckets v }) := rfl

/-! ### Step lemmas for reads after writes -/

/-- One `incrementCounter` call adds its delta to the counter it targets. -/
theorem getCounter_incrementCounter_self (s : MetricsService) (n : String)
    (L : Option Labels) (v : ℚ) :
    getCounter (incrementCounter s n L v) n L = getCounter s n L + v := by
  unfold getCounter
  rw [counters_incrementCounter, alookup_mapSet_self]
  cases h : alookup s.counters (getKey n L) <;> simp [h]

/-- `incrementCounter` leaves counters stored under any other key unchanged. -/
theorem getCounter_incrementCounter_ne (s : MetricsService) (n n' : String)
    (L L' : Option Labels) (v : ℚ) (h : getKey n' L' ≠ getKey n L) :
    getCounter (incrementCounter s n L v) n' L' = getCounter s n' L' := by
  unfold getCounter
  rw [counters_incrementCounter, alookup_mapSet_ne _ _ _ _ h]

/-- Counters are unaffected by `recordHistogram`. -/
theorem getCounter_recordHistogram (s : MetricsService) (n n' : String)
    (v : ℚ) (L L' : Option Labels) :
    getCounter (recordHistogram s n v L) n' L' = getCounter s n' L' := by
  unfold getCounter
  rw [counters_recordHistogram]

/-- Histograms are unaffected by `incrementCounter`. -/
theorem getHistogram_incrementCounter (s : MetricsService) (n n' : String)
    (L L' : Option Labels) (v : ℚ) :
    getHistogram (incrementCounter s n L v) n' L' = getHistogram s n' L' := by
  unfold getHistogram
  rw [histograms_incrementCounter]

/-- The histogram written by one `recordHistogram` call. -/
theorem getHistogram_recordHistogram_self (s : MetricsService) (n : String)
    (v : ℚ) (L : Option Labels) :
    getHistogram (recordHistogram s n v L) n L
      = some (let h := (alookup s.histograms (getKey n L)).getD ⟨0, 0, [], L⟩
              { h with count := h.count + 1, sum := h.sum + v,
                       buckets := updateBuckets h.buckets v }) := by
  unfold getHistogram
  rw [histograms_recordHistogram, alookup_mapSet_self]

/-- `recordHistogram` leaves histograms under any other key unchanged. -/
theorem getHistogram_recordHistogram_ne (s : MetricsService) (n n' : String)
    (v : ℚ) (L L' : Option Labels) (h : getKey n' L' ≠ getKey n L) :
    getHistogram (recordHistogram s n v L) n' L' = getHistogram s n' L' := by
  unfold getHistogram
  rw [histograms_recordHistogram, alookup_mapSet_ne _ _ _ _ h]

/-- One `recordHistogram` call increments the observation count. -/
theorem histCount_recordHistogram_self (s : MetricsService) (n : String)
    (v : ℚ) (L : Option Labels) :
    histCount (recordHistogram s n v L) n L = histCount s n L + 1 := by
  unfold histCount
  rw [getHistogram_recordHistogram_self]
  unfold getHistogram
  cases h : alookup s.histograms (getKey n L) <;> simp [h]

/-- One `recordHistogram` call adds the observed value to the sum. -/
theorem histSum_recordHistogram_self (s : MetricsService) (n : String)
    (v : ℚ) (L : Option Labels) :
    histSum (recordHistogram s n v L) n L = histSum s n L + v := by
  unfold histSum
  rw [getHistogram_recordHistogram_self]
  unfold getHistogram
  cases h : alookup s.histograms (getKey n L) <;> simp [h]

end Metrics

namespace Metrics

/-- Folding a list of deltas adds their sum to the targeted counter. -/
theorem getCounter_foldl_inc (ds : List ℚ) (s : MetricsService) (n : String)
    (L : Option Labels) :
    getCounter (ds.foldl (fun t d => incrementCounter t n L d) s) n L
      = getCounter s n L + ds.sum := by
  induction ds generalizing s with
  | nil => simp
  | cons d ds ih =>
      rw [List.foldl_cons, ih, getCounter_incrementCounter_self, List.sum_cons]
      ring

/-- C1: starting from a store with no prior write under the canonical key of
`(n, L)`, a sequence of `incrementCounter(n, L, d_i)` calls leaves
`getCounter(n, L)` equal to the sum of the deltas. -/
theorem counter_sequence_sums (s : MetricsService) (n : String) (L : Option Labels)
    (ds : List ℚ) (h : alookup s.counters (getKey n L) = none) :
    getCounter (ds.foldl (fun t d => incrementCounter t n L d) s) n L = ds.sum := by
  have h0 : getCounter s n L = 0 := by unfold getCounter; rw [h]
  rw [getCounter_foldl_inc, h0, zero_add]

/-- Witness for C1: `incrementCounter("test_counter", {type:"test"}, 1)`,
then the same call with delta 2, yields `getCounter == 3`. -/
theorem counter_sequence_sums_witness :
    getCounter (([1, 2] : List ℚ).foldl
        (fun t d => incrementCounter t "test_counter" (some [("type", "test")]) d)
        emptyService) "test_counter" (some [("type", "test")]) = 3 := by
  have h := counter_sequence_sums emptyService "test_counter"
    (some [("type", "test")]) [1, 2] rfl
  norm_num at h
  exact h

/-- Folding a list of observations adds their number to the observation count. -/
theorem histCount_foldl (vs : List ℚ) (s : MetricsService) (n : String)
    (L : Option Labels) :
    histCount (vs.foldl (fun t v => recordHistogram t n v L) s) n L
      = histCount s n L + vs.length := by
  induction vs generalizing s with
  | nil => simp
  | cons v vs ih =>
      rw [List.foldl_cons, ih, histCount_recordHistogram_self, List.length_cons]
      omega

/-- Folding a list of observations adds their sum to the histogram sum. -/
theorem histSum_foldl (vs : List ℚ) (s : MetricsService) (n : String)
    (L : Option Labels) :
    histSum (vs.foldl (fun t v => recordHistogram t n v L) s) n L
      = histSum s n L + vs.sum := by
  induction vs generalizing s with
  | nil => simp
  | cons v vs ih =>
      rw [List.foldl_cons, ih, histSum_recordHistogram_self, List.sum_cons]
      ring

/-- Once a histogram exists it survives further observations. -/
theorem getHistogram_foldl_isSome (vs : List ℚ) (s : MetricsService) (n : String)
    (L : Option Labels) (h : (getHistogram s n L).isSome = true) :
    (getHistogram (vs.foldl (fun t v => recordHistogram t n v L) s) n L).isSome
      = true := by
  induction vs generalizing s with
  | nil => exact h
  | cons v vs ih =>
      rw [List.foldl_cons]
      exact ih _ (by rw [getHistogram_recordHistogram_self]; rfl)

/-- C2: starting from a store with no prior write under the canonical key of
`(n, L)`, a non-empty sequence of `recordHistogram(n, v_i, L)` calls leaves a
stored histogram whose `count` is the number of calls and whose `sum` is the
sum of the observed values. -/
theorem histogram_sequence_count_sum (s : MetricsService) (n : String)
    (L : Option Labels) (vs : List ℚ)
    (h0 : alookup s.histograms (getKey n L) = none) (hne : vs ≠ []) :
    ∃ h : Histogram,
      getHistogram (vs.foldl (fun t v => recordHistogram t n v L) s) n L = some h
        ∧ h.count = vs.length ∧ h.sum = vs.sum := by
  have hc := histCount_foldl vs s n L
  have hs := histSum_foldl vs s n L
  have h0c : histCount s n L = 0 := by unfold histCount getHistogram; rw [h0]
  have h0s : histSum s n L = 0 := by unfold histSum getHistogram; rw [h0]
  rw [h0c, zero_add] at hc
  rw [h0s, zero_add] at hs
  have hsome : (getHistogram (vs.foldl (fun t v => recordHistogram t n v L) s) n L).isSome
      = true := by
    cases vs with
    | nil => exact absurd rfl hne
    | cons v vs' =>
        rw [List.foldl_cons]
        exact getHistogram_foldl_isSome vs' _ n L
          (by rw [getHistogram_recordHistogram_self]; rfl)
  obtain ⟨h, hh⟩ := Option.isSome_iff_exists.mp hsome
  refine ⟨h, hh, ?_, ?_⟩
  · unfold histCount at hc
    rw [hh] at hc
    exact hc
  · unfold histSum at hs
    rw [hh] at hs
    exact hs

/-- Witness for C2: observing 100 then 200 under the same key yields a
histogram with `count == 2` and `sum == 300`. -/
theorem histogram_sequence_count_sum_witness :
    ∃ h : Histogram,
      getHistogram (([100, 200] : List ℚ).foldl
          (fun t v => recordHistogram t "h" v (some [("endpoint", "/users")]))
          emptyService) "h" (some [("endpoint", "/users")]) = some h
        ∧ h.count = 2 ∧ h.sum = 300 := by
  have h := histogram_sequence_count_sum emptyService "h"
    (some [("endpoint", "/users")]) [100, 200] rfl (by simp)
  norm_num at h
  exact h

end Metrics

namespace Metrics

/-- C9: after `reset`, every read returns the absent/zero state for every
key: counters and gauges read 0, histograms are absent, and the event log
is empty. -/
theorem reset_clears (s : MetricsService) (n : String) (L : Option Labels) :
    getCounter (reset s) n L = 0
      ∧ getGauge (reset s) n L = 0
      ∧ getHistogram (reset s) n L = none
      ∧ getMetrics (reset s) = [] :=
  ⟨rfl, rfl, rfl, rfl⟩

/-- Totality of the lexicographic comparison. -/
theorem charListLe_total : ∀ x y : List Char,
    charListLe x y = true ∨ charListLe y x = true := by
  intro x
  induction x with
  | nil => intro y; left; rfl
  | cons c cs ih =>
      intro y
      cases y with
      | nil => right; rfl
      | cons d ds =>
          by_cases hcd : c = d
          · subst hcd
            simpa [charListLe] using ih ds
          · rcases lt_or_gt_of_ne hcd with h | h
            · left
              simp [charListLe, hcd, h]
            · right
              simp [charListLe, Ne.symm hcd, h]

/-- Transitivity of the lexicographic comparison. -/
theorem charListLe_trans : ∀ x y z : List Char, charListLe x y = true →
    charListLe y z = true → charListLe x z = true := by
  intro x
  induction x with
  | nil => intro y z _ _; rfl
  | cons c cs ih =>
      intro y z h1 h2
      cases y with
      | nil => simp [charListLe] at h1
      | cons d ds =>
          cases z with
          | nil => simp [charListLe] at h2
          | cons e es =>
              by_cases hcd : c = d
              · subst hcd
                simp only [charListLe, if_pos rfl] at h1
                by_cases hde : c = e
                · subst hde
                  simp only [charListLe, if_pos rfl] at h2 ⊢
                  exact ih ds es h1 h2
                · simp only [charListLe, if_neg hde] at h2 ⊢
                  exact h2
              · have hlt1 : c < d := by
                  by_contra hn
                  simp [charListLe, hcd, hn] at h1
                by_cases hde : d = e
                · subst hde
                  simp [charListLe, hcd, hlt1]
                · have hlt2 : d < e := by
                    by_contra hn
                    simp [charListLe, hde, hn] at h2
                  have hce : c < e := lt_trans hlt1 hlt2
                  simp [charListLe, ne_of_lt hce, hce]

/-- Antisymmetry of the lexicographic comparison. -/
theorem charListLe_antisymm : ∀ x y : List Char, charListLe x y = true →
    charListLe y x = true → x = y := by
  intro x
  induction x with
  | nil =>
      intro y _ h2
      cases y with
      | nil => rfl
      | cons d ds => simp [charListLe] at h2
  | cons c cs ih =>
      intro y h1 h2
      cases y with
      | nil => simp [charListLe] at h1
      | cons d ds =>
          by_cases hcd : c = d
          · subst hcd
            simp only [charListLe, if_pos rfl] at h1 h2
            rw [ih ds h1 h2]
          · have hlt1 : c < d := by
              by_contra hn
              simp [charListLe, hcd, hn] at h1
            have hlt2 : d < c := by
              by_contra hn
              simp [charListLe, Ne.symm hcd, hn] at h2
            exact absurd hlt2 (lt_asymm hlt1)

instance : IsTotal (String × String) keyLE := ⟨fun a b => charListLe_total a.1.data b.1.data⟩

instance : IsTrans (String × String) keyLE :=
  ⟨fun a b c hab hbc => charListLe_trans a.1.data b.1.data c.1.data hab hbc⟩

instance : IsAntisymm (String × String) keyLT :=
  ⟨by
    rintro a b ⟨hle1, hne1⟩ ⟨hle2, hne2⟩
    exact absurd (String.ext (charListLe_antisymm a.1.data b.1.data hle1 hle2)) hne1⟩

/-- Sorting by key sends any two permutations with pairwise distinct keys
to the same list. -/
theorem sortLabels_perm_eq (l1 l2 : Labels) (hp : l1.Perm l2)
    (hnd : (l1.map Prod.fst).Nodup) : sortLabels l1 = sortLabels l2 := by
  have hp1 : (sortLabels l1).Perm l1 := List.perm_insertionSort keyLE l1
  have hp2 : (sortLabels l2).Perm l2 := List.perm_insertionSort keyLE l2
  have hperm : (sortLabels l1).Perm (sortLabels l2) := hp1.trans (hp.trans hp2.symm)
  have hne1 : List.Pairwise (fun a b : String × String => a.1 ≠ b.1) l1 :=
    List.pairwise_map.mp hnd
  have hne2 : List.Pairwise (fun a b : String × String => a.1 ≠ b.1) l2 :=
    (List.Perm.pairwise_iff (fun h => Ne.symm h) hp).mp hne1
  have hs1 : List.Pairwise keyLE (sortLabels l1) := List.sorted_insertionSort keyLE l1
  have hs2 : List.Pairwise keyLE (sortLabels l2) := List.sorted_insertionSort keyLE l2
  have hnds1 : List.Pairwise (fun a b : String × String => a.1 ≠ b.1) (sortLabels l1) :=
    (List.Perm.pairwise_iff (fun h => Ne.symm h) hp1).mpr hne1
  have hnds2 : List.Pairwise (fun a b : String × String => a.1 ≠ b.1) (sortLabels l2) :=
    (List.Perm.pairwise_iff (fun h => Ne.symm h) hp2).mpr hne2
  have hlt1 : List.Sorted keyLT (sortLabels l1) :=
    (hs1.and hnds1).imp fun h => ⟨h.1, h.2⟩
  have hlt2 : List.Sorted keyLT (sortLabels l2) :=
    (hs2.and hnds2).imp fun h => ⟨h.1, h.2⟩
  exact List.eq_of_perm_of_sorted hperm hlt1 hlt2

/-- C4: two label maps holding the same key/value pairs in any insertion
order resolve to the same canonical key, hence every read observes the
same stored entity through either of them. -/
theorem canonical_key_order_irrelevant (n : String) (l1 l2 : Labels)
    (hp : l1.Perm l2) (hnd : (l1.map Prod.fst).Nodup) :
    getKey n (some l1) = getKey n (some l2)
      ∧ ∀ s : MetricsService,
          getCounter s n (some l1) = getCounter s n (some l2)
            ∧ getGauge s n (some l1) = getGauge s n (some l2)
            ∧ getHistogram s n (some l1) = getHistogram s n (some l2) := by
  have hkey : getKey n (some l1) = getKey n (some l2) := by
    have hemp : l1.isEmpty = l2.isEmpty := by
      have := hp.length_eq
      cases l1 <;> cases l2 <;> simp_all
    simp only [getKey, hemp, sortLabels_perm_eq l1 l2 hp hnd]
  refine ⟨hkey, fun s => ⟨?_, ?_, ?_⟩⟩
  · unfold getCounter
    rw [hkey]
  · unfold getGauge
    rw [hkey]
  · unfold getHistogram
    rw [hkey]

/-- Witness for C4: writing with `{a:"1", b:"2"}` and reading with
`{b:"2", a:"1"}` resolves to the same key and observes the written value. -/
theorem canonical_key_order_irrelevant_witness :
    getKey "m" (some [("a", "1"), ("b", "2")]) = getKey "m" (some [("b", "2"), ("a", "1")])
      ∧ getCounter (incrementCounter emptyService "m" (some [("a", "1"), ("b", "2")]) 7)
          "m" (some [("b", "2"), ("a", "1")]) = 7 := by
  have h := canonical_key_order_irrelevant "m" [("a", "1"), ("b", "2")]
    [("b", "2"), ("a", "1")] (by decide) (by decide)
  exact ⟨h.1, by rw [← (h.2 _).1]; decide⟩

end Metrics

namespace Metrics

/-- Effect of the bucket-update fold on one bucket read: a bucket in the
bound list with `value <= bound` is incremented, every other bucket is
unchanged. -/
theorem bucketFold_lookup (L : List Bound) (hnd : L.Nodup) (bs : List (Bound × ℕ))
    (v : ℚ) (b : Bound) :
    (alookup (L.foldl (fun bs' b' =>
          if leBound v b' then mapSet bs' b' ((alookup bs' b').getD 0 + 1) else bs') bs)
        b).getD 0
      = if b ∈ L ∧ leBound v b = true then (alookup bs b).getD 0 + 1
        else (alookup bs b).getD 0 := by
  induction L generalizing bs with
  | nil => simp
  | cons b0 L ih =>
      rw [List.foldl_cons]
      rcases List.nodup_cons.mp hnd with ⟨hb0, hndL⟩
      by_cases hbb : b = b0
      · subst hbb
        rw [ih hndL]
        have hnotin : b ∉ L := hb0
        by_cases hle : leBound v b = true
        · simp [hnotin, hle, alookup_mapSet_self]
        · simp [hnotin, hle]
      · have hstep :
            alookup (if leBound v b0 then mapSet bs b0 ((alookup bs b0).getD 0 + 1) else bs) b
              = alookup bs b := by
          split
          · exact alookup_mapSet_ne _ _ _ _ hbb
          · rfl
        rw [ih hndL, hstep]
        simp [List.mem_cons, hbb]

/-- Effect of `updateBuckets` on one bucket read. -/
theorem bucketVal_updateBuckets (bs : List (Bound × ℕ)) (v : ℚ) (b : Bound) :
    (alookup (updateBuckets bs v) b).getD 0
      = if b ∈ stdBuckets ∧ leBound v b = true then (alookup bs b).getD 0 + 1
        else (alookup bs b).getD 0 :=
  bucketFold_lookup stdBuckets (by norm_num [stdBuckets]; simp) bs v b

/-- Monotonicity of one `updateBuckets` step across a pair of bounds both
drawn from the fixed bucket list. -/
theorem bucketVal_update_le (h : Histogram) (v : ℚ) (b1 b2 : Bound)
    (hm1 : b1 ∈ stdBuckets) (hm2 : b2 ∈ stdBuckets)
    (hold : bucketVal h b1 ≤ bucketVal h b2)
    (hmono : leBound v b1 = true → leBound v b2 = true) :
    (alookup (updateBuckets h.buckets v) b1).getD 0
      ≤ (alookup (updateBuckets h.buckets v) b2).getD 0 := by
  rw [bucketVal_updateBuckets, bucketVal_updateBuckets]
  unfold bucketVal at hold
  by_cases hle1 : leBound v b1 = true
  · rw [if_pos ⟨hm1, hle1⟩, if_pos ⟨hm2, hmono hle1⟩]
    omega
  · rw [if_neg (by tauto)]
    by_cases hle2 : leBound v b2 = true
    · rw [if_pos ⟨hm2, hle2⟩]
      omega
    · rw [if_neg (by tauto)]
      exact hold

/-- The empty histogram created lazily by `recordHistogram` satisfies the
bucket invariant. -/
theorem histInvariant_fresh (L : Option Labels) :
    histInvariant ⟨0, 0, [], L⟩ := by
  constructor
  · simp [stdBuckets, List.chain'_cons, bucketVal, alookup]
  · rfl

/-- One `recordHistogram` update preserves the bucket invariant. -/
theorem histInvariant_update (h : Histogram) (v : ℚ) (hinv : histInvariant h) :
    histInvariant { h with count := h.count + 1, sum := h.sum + v,
                           buckets := updateBuckets h.buckets v } := by
  obtain ⟨hchain, hinf⟩ := hinv
  constructor
  · simp only [stdBuckets, List.chain'_cons, List.chain'_singleton, and_true] at hchain ⊢
    obtain ⟨h1, h2, h3, h4, h5, h6⟩ := hchain
    refine ⟨?_, ?_, ?_, ?_, ?_, ?_⟩
    · exact bucketVal_update_le h v _ _ (by simp [stdBuckets]) (by simp [stdBuckets]) h1
        (by intro hv; simp only [leBound, decide_eq_true_eq] at hv ⊢; linarith)
    · exact bucketVal_update_le h v _ _ (by simp [stdBuckets]) (by simp [stdBuckets]) h2
        (by intro hv; simp only [leBound, decide_eq_true_eq] at hv ⊢; linarith)
    · exact bucketVal_update_le h v _ _ (by simp [stdBuckets]) (by simp [stdBuckets]) h3
        (by intro hv; simp only [leBound, decide_eq_true_eq] at hv ⊢; linarith)
    · exact bucketVal_update_le h v _ _ (by simp [stdBuckets]) (by simp [stdBuckets]) h4
        (by intro hv; simp only [leBound, decide_eq_true_eq] at hv ⊢; linarith)
    · exact bucketVal_update_le h v _ _ (by simp [stdBuckets]) (by simp [stdBuckets]) h5
        (by intro hv; simp only [leBound, decide_eq_true_eq] at hv ⊢; linarith)
    · exact bucketVal_update_le h v _ _ (by simp [stdBuckets]) (by simp [stdBuckets]) h6
        (by intro _; rfl)
  · show (alookup (updateBuckets h.buckets v) .inf).getD 0 = h.count + 1
    rw [bucketVal_updateBuckets]
    rw [if_pos ⟨by simp [stdBuckets], rfl⟩]
    unfold bucketVal at hinf
    omega

/-- `recordHistogram` preserves the store-wide bucket invariant. -/
theorem allHistInvariant_record (s : MetricsService) (n : String) (v : ℚ)
    (L : Option Labels) (hall : allHistInvariant s) :
    allHistInvariant (recordHistogram s n v L) := by
  intro key h hkey
  rw [histograms_recordHistogram] at hkey
  by_cases hk : key = getKey n L
  · subst hk
    rw [alookup_mapSet_self] at hkey
    cases hbase : alookup s.histograms (getKey n L) with
    | some h0 =>
        rw [hbase] at hkey
        simp only [Option.getD_some, Option.some.injEq] at hkey
        subst hkey
        exact histInvariant_update h0 v (hall _ _ hbase)
    | none =>
        rw [hbase] at hkey
        simp only [Option.getD_none, Option.some.injEq] at hkey
        subst hkey
        exact histInvariant_update ⟨0, 0, [], L⟩ v (histInvariant_fresh L)
  · rw [alookup_mapSet_ne _ _ _ _ hk] at hkey
    exact hall _ _ hkey

/-- A fresh service stores no histogram at all. -/
theorem allHistInvariant_empty : allHistInvariant emptyService := by
  intro key h hk
  simp [emptyService, alookup] at hk

/-- Folding `recordHistogram` calls preserves the store-wide invariant. -/
theorem allHistInvariant_foldl (calls : List HistCall) :
    ∀ s, allHistInvariant s → allHistInvariant
      (calls.foldl (fun t c => recordHistogram t c.name c.value c.labels) s) := by
  induction calls with
  | nil => exact fun _ hs => hs
  | cons c cs ih =>
      intro s hs
      rw [List.foldl_cons]
      exact ih _ (allHistInvariant_record _ _ _ _ hs)

/-- Every store reachable by `recordHistogram` calls satisfies the
store-wide bucket invariant. -/
theorem allHistInvariant_runHistCalls (calls : List HistCall) :
    allHistInvariant (runHistCalls calls) :=
  allHistInvariant_foldl calls emptyService allHistInvariant_empty

/-- C3: in every histogram reachable by a sequence of `recordHistogram`
calls, the stored bucket counts (0 when absent) are non-decreasing along
the fixed bucket bounds 0.1, 0.5, 1, 2.5, 5, 10, +Inf, and the +Inf
bucket count equals the histogram's `count` field. -/
theorem histogram_bucket_invariant (calls : List HistCall) (key : String)
    (h : Histogram) (hmem : alookup (runHistCalls calls).histograms key = some h) :
    List.Chain' (fun b1 b2 => bucketVal h b1 ≤ bucketVal h b2) stdBuckets
      ∧ bucketVal h .inf = h.count :=
  allHistInvariant_runHistCalls calls key h hmem

/-- Witness for C3: the invariant holds for the histogram produced by one
observation of 5 (buckets 5, 10, +Inf present, the rest absent). -/
theorem histogram_bucket_invariant_witness :
    List.Chain'
        (fun b1 b2 =>
          bucketVal ⟨1, 5, [(.fin 5, 1), (.fin 10, 1), (.inf, 1)], none⟩ b1
            ≤ bucketVal ⟨1, 5, [(.fin 5, 1), (.fin 10, 1), (.inf, 1)], none⟩ b2)
        stdBuckets
      ∧ bucketVal ⟨1, 5, [(.fin 5, 1), (.fin 10, 1), (.inf, 1)], none⟩ .inf
          = (⟨1, 5, [(.fin 5, 1), (.fin 10, 1), (.inf, 1)], none⟩ : Histogram).count :=
  histogram_bucket_invariant [⟨"h", 5, none⟩] "h"
    ⟨1, 5, [(.fin 5, 1), (.fin 10, 1), (.inf, 1)], none⟩ (by
      show alookup (recordHistogram emptyService "h" 5 none).histograms "h" = _
      rw [histograms_recordHistogram]
      norm_num [emptyService, getKey, alookup, mapSet, updateBuckets, stdBuckets, leBound]
      simp)

end Metrics

namespace Metrics

/-- Canonical keys of two families whose names have different lengths never
collide (the label suffix is identical on both sides). -/
theorem getKey_ne_of_length_ne (n1 n2 : String) (L : Option Labels)
    (h : n1.length ≠ n2.length) : getKey n1 L ≠ getKey n2 L := by
  intro heq
  apply h
  have hlen := congrArg String.length heq
  cases L with
  | none => exact hlen
  | some l =>
      by_cases he : l.isEmpty = true
      · simp only [getKey, if_pos he] at hlen
        exact hlen
      · simp only [getKey, if_neg he, String.length_append] at hlen
        omega

/-- Histogram reads are unaffected by `incrementCounter`. -/
theorem histCount_incrementCounter (s : MetricsService) (n n' : String)
    (L L' : Option Labels) (v : ℚ) :
    histCount (incrementCounter s n L v) n' L' = histCount s n' L' := by
  unfold histCount
  rw [getHistogram_incrementCounter]

/-- Histogram sums are unaffected by `incrementCounter`. -/
theorem histSum_incrementCounter (s : MetricsService) (n n' : String)
    (L L' : Option Labels) (v : ℚ) :
    histSum (incrementCounter s n L v) n' L' = histSum s n' L' := by
  unfold histSum
  rw [getHistogram_incrementCounter]

/-- C6: `recordApiCall(endpoint, method, statusCode, durationMs)` increments
`api_requests_total` by 1 under the labels
`{endpoint, method, status_code}`, records one observation of
`durationMs/1000` into `api_request_duration_seconds`, and increments
`api_errors_total` by 1 exactly when `statusCode >= 400`. -/
theorem recordApiCall_effects (s : MetricsService) (endpoint method : String)
    (statusCode : ℤ) (duration : ℚ) :
    getCounter (recordApiCall s endpoint method statusCode duration)
        "api_requests_total" (some (apiLabels endpoint method statusCode))
      = getCounter s "api_requests_total" (some (apiLabels endpoint method statusCode)) + 1
    ∧ histCount (recordApiCall s endpoint method statusCode duration)
        "api_request_duration_seconds" (some (apiLabels endpoint method statusCode))
      = histCount s "api_request_duration_seconds"
          (some (apiLabels endpoint method statusCode)) + 1
    ∧ histSum (recordApiCall s endpoint method statusCode duration)
        "api_request_duration_seconds" (some (apiLabels endpoint method statusCode))
      = histSum s "api_request_duration_seconds"
          (some (apiLabels endpoint method statusCode)) + duration / 1000
    ∧ getCounter (recordApiCall s endpoint method statusCode duration)
        "api_errors_total" (some (apiLabels endpoint method statusCode))
      = getCounter s "api_errors_total" (some (apiLabels endpoint method statusCode))
          + (if 400 ≤ statusCode then 1 else 0) := by
  have hkey1 : getKey "api_requests_total" (some (apiLabels endpoint method statusCode))
      ≠ getKey "api_errors_total" (some (apiLabels endpoint method statusCode)) :=
    getKey_ne_of_length_ne _ _ _ (by decide)
  unfold recordApiCall
  by_cases hst : 400 ≤ statusCode
  · rw [if_pos hst]
    refine ⟨?_, ?_, ?_, ?_⟩
    · rw [getCounter_incrementCounter_ne _ _ _ _ _ _ hkey1,
        getCounter_recordHistogram, getCounter_incrementCounter_self]
    · rw [histCount_incrementCounter, histCount_recordHistogram_self,
        histCount_incrementCounter]
    · rw [histSum_incrementCounter, histSum_recordHistogram_self,
        histSum_incrementCounter]
    · rw [getCounter_incrementCounter_self, getCounter_recordHistogram,
        getCounter_incrementCounter_ne _ _ _ _ _ _ hkey1.symm, if_pos hst]
  · rw [if_neg hst]
    refine ⟨?_, ?_, ?_, ?_⟩
    · rw [getCounter_recordHistogram, getCounter_incrementCounter_self]
    · rw [histCount_recordHistogram_self, histCount_incrementCounter]
    · rw [histSum_recordHistogram_self, histSum_incrementCounter]
    · rw [getCounter_recordHistogram,
        getCounter_incrementCounter_ne _ _ _ _ _ _ hkey1.symm, if_neg hst, add_zero]

end Metrics

namespace Metrics

/-- C8 counterexample: `recordFileOperation('upload', 'pdf', 0)` has its
size argument given, yet only the counter is written: the `if (size)`
truthiness guard is false at 0, so no `file_size_bytes` histogram is
created, contradicting the claim that a given size is always recorded. -/
theorem recordFileOperation_zero_size_skips_histogram :
    getCounter fileEx "file_operations_total"
        (some [("operation", "upload"), ("file_type", "pdf")]) = 1
      ∧ getHistogram fileEx "file_size_bytes"
          (some [("operation", "upload"), ("file_type", "pdf")]) = none := by
  have hfe : fileEx = incrementCounter emptyService "file_operations_total"
      (some [("operation", "upload"), ("file_type", "pdf")]) 1 := by
    simp [fileEx, recordFileOperation]
  constructor
  · rw [hfe, getCounter_incrementCounter_self]
    norm_num [getCounter, emptyService, alookup]
  · rw [hfe, getHistogram_incrementCounter]
    rfl

/-- C8 (amended): `recordFileOperation(operation, fileType, sizeBytes?)`
always increments `file_operations_total{operation, file_type}` by 1; it
records one `file_size_bytes` observation of value `sizeBytes` exactly when
`sizeBytes` is given and non-zero (JavaScript truthiness), and leaves the
histogram map untouched when the size is omitted or equal to 0. -/
theorem recordFileOperation_effects (s : MetricsService) (operation fileType : String)
    (size : Option ℚ) :
    getCounter (recordFileOperation s operation fileType size) "file_operations_total"
        (some [("operation", operation), ("file_type", fileType)])
      = getCounter s "file_operations_total"
          (some [("operation", operation), ("file_type", fileType)]) + 1
    ∧ (match size with
       | none =>
           getHistogram (recordFileOperation s operation fileType size)
               "file_size_bytes" (some [("operation", operation), ("file_type", fileType)])
             = getHistogram s "file_size_bytes"
                 (some [("operation", operation), ("file_type", fileType)])
       | some v =>
           if v = 0 then
             getHistogram (recordFileOperation s operation fileType size)
                 "file_size_bytes" (some [("operation", operation), ("file_type", fileType)])
               = getHistogram s "file_size_bytes"
                   (some [("operation", operation), ("file_type", fileType)])
           else
             histCount (recordFileOperation s operation fileType size)
                 "file_size_bytes" (some [("operation", operation), ("file_type", fileType)])
               = histCount s "file_size_bytes"
                   (some [("operation", operation), ("file_type", fileType)]) + 1
             ∧ histSum (recordFileOperation s operation fileType size)
                 "file_size_bytes" (some [("operation", operation), ("file_type", fileType)])
               = histSum s "file_size_bytes"
                   (some [("operation", operation), ("file_type", fileType)]) + v) := by
  cases size with
  | none =>
      unfold recordFileOperation
      exact ⟨getCounter_incrementCounter_self _ _ _ _,
        getHistogram_incrementCounter _ _ _ _ _ _⟩
  | some v =>
      by_cases hv : v = 0
      · subst hv
        unfold recordFileOperation
        simp only [if_pos rfl]
        exact ⟨getCounter_incrementCounter_self _ _ _ _,
          getHistogram_incrementCounter _ _ _ _ _ _⟩
      · unfold recordFileOperation
        simp only [if_neg hv]
        refine ⟨?_, ?_, ?_⟩
        · rw [getCounter_recordHistogram, getCounter_incrementCounter_self]
        · rw [histCount_recordHistogram_self, histCount_incrementCounter]
        · rw [histSum_recordHistogram_self, histSum_incrementCounter]

end Metrics

namespace Metrics

/-- A labeled canonical key always contains the `|` separator. -/
theorem bar_mem_getKey (n : String) (L : Labels) (hL : L.isEmpty = false) :
    '|' ∈ (getKey n (some L)).data := by
  simp only [getKey, hL, Bool.false_eq_true, if_false, String.data_append]
  simp

/-- A labeled canonical key never equals a bare (separator-free) name. -/
theorem getKey_labeled_ne (n m : String) (L : Labels) (hL : L.isEmpty = false)
    (hm : '|' ∉ m.data) : getKey n (some L) ≠ m := by
  intro he
  exact hm (he ▸ bar_mem_getKey n L hL)

/-- `recordApiCall` writes only labeled keys: the three unlabeled keys the
summary view reads stay absent. -/
theorem recordApiCall_preserves_unlabeled (s : MetricsService) (c : ApiCall)
    (h1 : alookup s.counters "api_requests_total" = none)
    (h2 : alookup s.counters "api_errors_total" = none)
    (h3 : alookup s.histograms "api_request_duration_seconds" = none) :
    alookup (recordApiCall s c.endpoint c.method c.statusCode c.duration).counters
        "api_requests_total" = none
      ∧ alookup (recordApiCall s c.endpoint c.method c.statusCode c.duration).counters
          "api_errors_total" = none
      ∧ alookup (recordApiCall s c.endpoint c.method c.statusCode c.duration).histograms
          "api_request_duration_seconds" = none := by
  have hne1 : ("api_requests_total" : String)
      ≠ getKey "api_requests_total" (some (apiLabels c.endpoint c.method c.statusCode)) :=
    (getKey_labeled_ne _ _ (apiLabels c.endpoint c.method c.statusCode) rfl (by decide)).symm
  have hne2 : ("api_requests_total" : String)
      ≠ getKey "api_errors_total" (some (apiLabels c.endpoint c.method c.statusCode)) :=
    (getKey_labeled_ne _ _ (apiLabels c.endpoint c.method c.statusCode) rfl (by decide)).symm
  have hne3 : ("api_errors_total" : String)
      ≠ getKey "api_requests_total" (some (apiLabels c.endpoint c.method c.statusCode)) :=
    (getKey_labeled_ne _ _ (apiLabels c.endpoint c.method c.statusCode) rfl (by decide)).symm
  have hne4 : ("api_errors_total" : String)
      ≠ getKey "api_errors_total" (some (apiLabels c.endpoint c.method c.statusCode)) :=
    (getKey_labeled_ne _ _ (apiLabels c.endpoint c.method c.statusCode) rfl (by decide)).symm
  have hne5 : ("api_request_duration_seconds" : String)
      ≠ getKey "api_request_duration_seconds"
          (some (apiLabels c.endpoint c.method c.statusCode)) :=
    (getKey_labeled_ne _ _ (apiLabels c.endpoint c.method c.statusCode) rfl (by decide)).symm
  unfold recordApiCall
  by_cases hst : 400 ≤ c.statusCode
  · rw [if_pos hst]
    refine ⟨?_, ?_, ?_⟩
    · rw [counters_incrementCounter, alookup_mapSet_ne _ _ _ _ hne2,
        counters_recordHistogram, counters_incrementCounter,
        alookup_mapSet_ne _ _ _ _ hne1]
      exact h1
    · rw [counters_incrementCounter, alookup_mapSet_ne _ _ _ _ hne4,
        counters_recordHistogram, counters_incrementCounter,
        alookup_mapSet_ne _ _ _ _ hne3]
      exact h2
    · rw [histograms_incrementCounter, histograms_recordHistogram,
        alookup_mapSet_ne _ _ _ _ hne5, histograms_incrementCounter]
      exact h3
  · rw [if_neg hst]
    refine ⟨?_, ?_, ?_⟩
    · rw [counters_recordHistogram, counters_incrementCounter,
        alookup_mapSet_ne _ _ _ _ hne1]
      exact h1
    · rw [counters_recordHistogram, counters_incrementCounter,
        alookup_mapSet_ne _ _ _ _ hne3]
      exact h2
    · rw [histograms_recordHistogram, alookup_mapSet_ne _ _ _ _ hne5,
        histograms_incrementCounter]
      exact h3

/-- Folding `recordApiCall` calls never creates the unlabeled summary keys. -/
theorem runApiCalls_unlabeled_absent (calls : List ApiCall) :
    alookup (runApiCalls calls).counters "api_requests_total" = none
      ∧ alookup (runApiCalls calls).counters "api_errors_total" = none
      ∧ alookup (runApiCalls calls).histograms "api_request_duration_seconds" = none := by
  have main : ∀ s : MetricsService,
      alookup s.counters "api_requests_total" = none →
      alookup s.counters "api_errors_total" = none →
      alookup s.histograms "api_request_duration_seconds" = none →
      alookup ((calls.foldl (fun t c =>
            recordApiCall t c.endpoint c.method c.statusCode c.duration) s)).counters
          "api_requests_total" = none
        ∧ alookup ((calls.foldl (fun t c =>
            recordApiCall t c.endpoint c.method c.statusCode c.duration) s)).counters
            "api_errors_total" = none
        ∧ alookup ((calls.foldl (fun t c =>
            recordApiCall t c.endpoint c.method c.statusCode c.duration) s)).histograms
            "api_request_duration_seconds" = none := by
    induction calls with
    | nil => exact fun s h1 h2 h3 => ⟨h1, h2, h3⟩
    | cons c cs ih =>
        intro s h1 h2 h3
        rw [List.foldl_cons]
        obtain ⟨g1, g2, g3⟩ := recordApiCall_preserves_unlabeled s c h1 h2 h3
        exact ih _ g1 g2 g3
  exact main emptyService rfl rfl rfl

/-- C10: a store populated only by `recordApiCall` invocations writes the
`api_*` families solely under labeled canonical keys, while the summary
view reads the unlabeled keys, so its `api` section reports zero for
`totalRequests`, `totalErrors`, `errorRate` and `averageResponseTime`
no matter how many API calls were recorded. -/
theorem api_summary_all_zero (calls : List ApiCall) :
    apiSummary (runApiCalls calls) = ⟨0, 0, 0, 0⟩ := by
  obtain ⟨h1, h2, h3⟩ := runApiCalls_unlabeled_absent calls
  unfold apiSummary calculateErrorRate calculateAverageResponseTime
  unfold getCounter getHistogram
  simp only [getKey]
  rw [h1, h2, h3]
  norm_num

end Metrics

namespace Metrics

/-- The last-`n` suffix never exceeds `n` elements. -/
theorem takeLast_length_le {α : Type} (n : ℕ) (l : List α) :
    (takeLast n l).length ≤ n := by
  simp only [takeLast, List.length_drop]
  omega

/-- Truncating, appending, and truncating again is one truncation. -/
theorem takeLast_append_takeLast {α : Type} (n : ℕ) (l l' : List α) :
    takeLast n (takeLast n l ++ l') = takeLast n (l ++ l') := by
  unfold takeLast
  rw [← List.drop_append_of_le_length (show l.length - n ≤ l.length by omega),
    List.drop_drop]
  congr 1
  simp only [List.length_drop, List.length_append]
  omega

/-- The log update of `recordMetric` is exactly "append, keep the last
1000": below capacity nothing is dropped, above it the oldest entries go. -/
theorem recordMetricList (l : List Metric) (e : Metric) :
    (if 1000 < (l ++ [e]).length then (l ++ [e]).drop ((l ++ [e]).length - 1000)
     else l ++ [e]) = takeLast 1000 (l ++ [e]) := by
  unfold takeLast
  split
  · rfl
  · rename_i hc
    have h0 : (l ++ [e]).length - 1000 = 0 := by
      simp only [List.length_append, List.length_cons, List.length_nil] at hc ⊢
      omega
    rw [h0, List.drop_zero]

theorem metrics_recordMetric (s : MetricsService) (n : String) (v : ℚ)
    (L : Option Labels) :
    (recordMetric s n v L).metrics = takeLast 1000 (s.metrics ++ [⟨n, v, L⟩]) :=
  recordMetricList s.metrics ⟨n, v, L⟩

theorem metrics_incrementCounter (s : MetricsService) (n : String)
    (L : Option Labels) (v : ℚ) :
    (incrementCounter s n L v).metrics = takeLast 1000 (s.metrics ++ [⟨n, v, L⟩]) :=
  metrics_recordMetric _ _ _ _

theorem metrics_recordHistogram (s : MetricsService) (n : String) (v : ℚ)
    (L : Option Labels) :
    (recordHistogram s n v L).metrics = takeLast 1000 (s.metrics ++ [⟨n, v, L⟩]) :=
  metrics_recordMetric _ _ _ _

theorem metrics_setGauge (s : MetricsService) (n : String) (v : ℚ)
    (L : Option Labels) :
    (setGauge s n v L).metrics = takeLast 1000 (s.metrics ++ [⟨n, v, L⟩]) :=
  metrics_recordMetric _ _ _ _

theorem metrics_incrementGauge (s : MetricsService) (n : String) (v : ℚ)
    (L : Option Labels) :
    (incrementGauge s n v L).metrics
      = takeLast 1000 (s.metrics ++ [⟨n, getGauge s n L + v, L⟩]) :=
  metrics_setGauge _ _ _ _

theorem metrics_decrementGauge (s : MetricsService) (n : String) (v : ℚ)
    (L : Option Labels) :
    (decrementGauge s n v L).metrics
      = takeLast 1000 (s.metrics ++ [⟨n, getGauge s n L - v, L⟩]) :=
  metrics_setGauge _ _ _ _

/-- Every mutating call turns the log into the last-1000 suffix of the old
log extended by its event list (one event per primitive write). -/
theorem metrics_applyOp (s : MetricsService) (op : MetricOp) :
    (applyOp s op).metrics = takeLast 1000 (s.metrics ++ opEvents s op) := by
  cases op with
  | incCounter n L v => exact metrics_incrementCounter s n L v
  | recHistogram n v L => exact metrics_recordHistogram s n v L
  | setG n v L => exact metrics_setGauge s n v L
  | incG n v L => exact metrics_incrementGauge s n v L
  | decG n v L => exact metrics_decrementGauge s n v L
  | apiCall e m st d =>
      show (recordApiCall s e m st d).metrics = _
      unfold recordApiCall
      by_cases hst : 400 ≤ st
      · rw [if_pos hst, metrics_incrementCounter, metrics_recordHistogram,
          metrics_incrementCounter, takeLast_append_takeLast, List.append_assoc,
          takeLast_append_takeLast]
        simp [opEvents, hst]
      · rw [if_neg hst, metrics_recordHistogram, metrics_incrementCounter,
          takeLast_append_takeLast]
        simp [opEvents, hst]
  | userAction a u => exact metrics_incrementCounter _ _ _ _
  | dbOp o t d =>
      show (recordDatabaseOperation s o t d).metrics = _
      unfold recordDatabaseOperation
      rw [metrics_recordHistogram, metrics_incrementCounter, takeLast_append_takeLast]
      simp [opEvents]
  | fileOp o ft size =>
      show (recordFileOperation s o ft size).metrics = _
      unfold recordFileOperation
      cases size with
      | none =>
          rw [metrics_incrementCounter]
          simp [opEvents]
      | some v =>
          dsimp only
          by_cases hv : v = 0
          · rw [if_pos hv, metrics_incrementCounter]
            simp [opEvents, hv]
          · rw [if_neg hv, metrics_recordHistogram, metrics_incrementCounter,
              takeLast_append_takeLast]
            simp [opEvents, hv]
  | authEvent e b => exact metrics_incrementCounter _ _ _ _
  | cacheHitRate svc hits total =>
      show (recordCacheHitRate s svc hits total).metrics = _
      unfold recordCacheHitRate
      rw [metrics_incrementCounter, metrics_incrementCounter, metrics_setGauge,
        takeLast_append_takeLast, List.append_assoc, takeLast_append_takeLast]
      simp [opEvents]

/-- The first component of the event-collecting fold is the plain fold. -/
theorem runOps_eq_pairFold (ops : List MetricOp) :
    ∀ (s : MetricsService) (acc : List Metric),
      (ops.foldl (fun p op => (applyOp p.1 op, p.2 ++ opEvents p.1 op)) (s, acc)).1
        = ops.foldl applyOp s := by
  induction ops with
  | nil => intro s acc; rfl
  | cons op ops ih =>
      intro s acc
      rw [List.foldl_cons, List.foldl_cons]
      exact ih _ _

/-- Invariant of the event-collecting fold: the live log is always the
last-1000 suffix of the full event trace. -/
theorem runOps_pair (ops : List MetricOp) :
    ∀ (s : MetricsService) (acc : List Metric), s.metrics = takeLast 1000 acc →
      (ops.foldl (fun p op => (applyOp p.1 op, p.2 ++ opEvents p.1 op)) (s, acc)).1.metrics
        = takeLast 1000
            (ops.foldl (fun p op => (applyOp p.1 op, p.2 ++ opEvents p.1 op)) (s, acc)).2 := by
  induction ops with
  | nil => intro s acc h; exact h
  | cons op ops ih =>
      intro s acc h
      rw [List.foldl_cons]
      apply ih
      rw [metrics_applyOp, h, takeLast_append_takeLast]

/-- C5: after any sequence of mutating calls (store primitives and business
facades), the event log holds at most 1000 `MetricEvent`s, and it is
exactly the most recent suffix — the last 1000 entries, in order — of the
full event trace in which each call contributed one event per underlying
primitive write. -/
theorem event_log_bounded (ops : List MetricOp) :
    (runOps ops).metrics.length ≤ 1000
      ∧ (runOps ops).metrics = takeLast 1000 (eventTrace ops) := by
  have hpair := runOps_pair ops emptyService [] rfl
  rw [runOps_eq_pairFold] at hpair
  have heq : (runOps ops).metrics = takeLast 1000 (eventTrace ops) := hpair
  rw [heq]
  exact ⟨takeLast_length_le 1000 _, rfl⟩

end Metrics

namespace Metrics

/-- The store reached by observing 5 once: the bucket map holds only the
bounds 5, 10 and `+Inf`. -/
theorem histEx_eq : histEx =
    ⟨[], [("h", ⟨1, 5, [(.fin 5, 1), (.fin 10, 1), (.inf, 1)], none⟩)],
      [], [⟨"h", 5, none⟩]⟩ := by
  norm_num [histEx, runHistCalls, recordHistogram, recordMetric, emptyService, getKey,
    alookup, mapSet, updateBuckets, stdBuckets, leBound]
  simp

/-- C7 counterexample: in the store reached by `recordHistogram("h", 5)`,
the `h` histogram family is present, yet no line of the Prometheus export
mentions `le="0.1"`: the exporter iterates only the buckets present in the
bucket map, so there is no bucket sample line for the fixed bound 0.1,
contrary to the claim that each of the seven fixed bounds gets a line. -/
theorem prometheus_bucket_line_missing :
    (getHistogram histEx "h" none).isSome = true
      ∧ (prometheusLines histEx).all
          (fun line => !containsSub line.data ("le=\"0.1\"").data) = true := by
  rw [histEx_eq]
  exact ⟨by decide, by decide⟩

/-- Every line of one histogram's block appears in the export. -/
theorem histogramLines_sub (s : MetricsService) (key : String) (h : Histogram)
    (hmem : (key, h) ∈ s.histograms) :
    ∀ line ∈ histogramLines (key, h), line ∈ prometheusLines s := by
  intro line hline
  unfold prometheusLines
  exact List.mem_append.mpr (Or.inl (List.mem_append.mpr
    (Or.inr (List.mem_flatMap.mpr ⟨(key, h), hmem, hline⟩))))

/-- C7 (amended): for every histogram entry present in the store, the
Prometheus text contains its `# TYPE <name> histogram` line, a
`<name>_count` and a `<name>_sum` sample line carrying the stored count
and sum, and one `<name>_bucket` sample line with an `le` label for each
bucket bound present in the histogram's bucket map — those bounds with at
least one observation below them — with `+Inf` rendered literally. -/
theorem prometheus_histogram_lines (s : MetricsService) (key : String) (h : Histogram)
    (hmem : (key, h) ∈ s.histograms) :
    ("# TYPE " ++ keyName key ++ " histogram") ∈ prometheusLines s
      ∧ (keyName key ++ "_count" ++ formatLabels h.labels ++ " " ++ toString h.count)
          ∈ prometheusLines s
      ∧ (keyName key ++ "_sum" ++ formatLabels h.labels ++ " " ++ jsNumStr h.sum)
          ∈ prometheusLines s
      ∧ ∀ bc ∈ h.buckets, bucketLine (keyName key) h.labels bc ∈ prometheusLines s := by
  refine ⟨histogramLines_sub s key h hmem _ ?_, histogramLines_sub s key h hmem _ ?_,
    histogramLines_sub s key h hmem _ ?_,
    fun bc hbc => histogramLines_sub s key h hmem _ ?_⟩
  · exact List.mem_cons_self _ _
  · exact List.mem_cons_of_mem _ (List.mem_cons_self _ _)
  · exact List.mem_cons_of_mem _ (List.mem_cons_of_mem _ (List.mem_cons_self _ _))
  · exact List.mem_cons_of_mem _ (List.mem_cons_of_mem _ (List.mem_cons_of_mem _
      (List.mem_map_of_mem _ hbc)))

/-- Witness for C7 (amended): a store holding one histogram entry under the
key `req` with count 2, sum 3 and two present buckets. -/
theorem prometheus_histogram_lines_witness :
    ("# TYPE " ++ keyName "req" ++ " histogram")
        ∈ prometheusLines ⟨[], [("req", ⟨2, 3, [(.fin 5, 2), (.inf, 2)], none⟩)], [], []⟩
      ∧ (keyName "req" ++ "_count" ++ formatLabels (none : Option Labels) ++ " "
            ++ toString (2 : ℕ))
          ∈ prometheusLines ⟨[], [("req", ⟨2, 3, [(.fin 5, 2), (.inf, 2)], none⟩)], [], []⟩
      ∧ (keyName "req" ++ "_sum" ++ formatLabels (none : Option Labels) ++ " "
            ++ jsNumStr 3)
          ∈ prometheusLines ⟨[], [("req", ⟨2, 3, [(.fin 5, 2), (.inf, 2)], none⟩)], [], []⟩
      ∧ ∀ bc ∈ [((Bound.fin 5 : Bound), (2 : ℕ)), (Bound.inf, 2)],
          bucketLine (keyName "req") (none : Option Labels) bc
            ∈ prometheusLines ⟨[], [("req", ⟨2, 3, [(.fin 5, 2), (.inf, 2)], none⟩)], [], []⟩ :=
  prometheus_histogram_lines ⟨[], [("req", ⟨2, 3, [(.fin 5, 2), (.inf, 2)], none⟩)], [], []⟩
    "req" ⟨2, 3, [(.fin 5, 2), (.inf, 2)], none⟩ (by decide)

end Metrics
